import Mathlib

/-!
Verification of the `simple-python-boilerplate` maintenance scripts.

Shallow embedding of the text-processing cores of `scripts/archive_todos.py`,
`scripts/workflow_versions.py` and `mkdocs-hooks/repo_links.py`.  All string
processing is modelled on `List Char` (Python `str` values), with the regular
expressions of the source hand-compiled into character-level scanners that
mirror the backtracking behaviour of Python's `re` module on the specific
patterns involved.  Effectful operations (HTTP requests, file reads) are
modelled by explicit oracle functions and request logs.
-/

set_option maxRecDepth 10000

deriving instance DecidableEq for Except

namespace Spec2Proof

/-! ## Generic character and substring helpers -/

/-- Does `needle` occur as a contiguous substring of `hay`?
Mirrors Python's `needle in hay`. -/
def containsSub (needle hay : List Char) : Bool :=
  match hay with
  | [] => needle.isPrefixOf ([] : List Char)
  | _ :: t => needle.isPrefixOf hay || containsSub needle t

/-- Split at the first newline: the current line's characters and the rest
(starting with the `'\n'`, when present).  Models a regex `.*` consuming to
the end of the current line. -/
def lineTake (s : List Char) : List Char × List Char :=
  (s.takeWhile (· ≠ '\n'), s.dropWhile (· ≠ '\n'))

/-- First index at which `needle` occurs in `hay`, if any. -/
def findSub (needle hay : List Char) : Option Nat :=
  match hay with
  | [] => if needle.isPrefixOf ([] : List Char) then some 0 else none
  | _ :: t =>
    if needle.isPrefixOf hay then some 0
    else (findSub needle t).map (· + 1)

/-- Split a character list at every occurrence of `sep`, Python
`str.split(sep)` style (always at least one segment). -/
def splitOnChar (sep : Char) : List Char → List (List Char)
  | [] => [[]]
  | c :: t =>
    if c = sep then [] :: splitOnChar sep t
    else
      match splitOnChar sep t with
      | [] => [[c]]
      | h :: r => (c :: h) :: r

/-- Python's `\s` character class (`str.strip` whitespace). -/
def isPySpace (c : Char) : Bool :=
  c = ' ' || c = '\t' || c = '\n' || c = '\r' || c = '\x0b' || c = '\x0c'

namespace ArchiveTodos

/-! ## `scripts/archive_todos.py`

`_COMPLETED_BLOCK_RE = re.compile(r"^- \[[xX]\] .+(?:\n\n?(?=  ).*)*", re.MULTILINE)`
-/

/-- Does the text start with two space characters?  Models the lookahead
`(?=  )` of `_COMPLETED_BLOCK_RE`. -/
def twoSpaces : List Char → Bool
  | ' ' :: ' ' :: _ => true
  | _ => false

/-- The continuation loop `(?:\n\n?(?=  ).*)*` of `_COMPLETED_BLOCK_RE`:
repeatedly consume a newline (optionally a second one, tried greedily first),
check the lookahead for two spaces, and consume the continuation line.
Returns the consumed characters and the remainder. -/
def contLoop (fuel : Nat) (s : List Char) : List Char × List Char :=
  match fuel with
  | 0 => ([], s)
  | fuel + 1 =>
    match s with
    | '\n' :: '\n' :: t =>
      if twoSpaces t then
        let (l, r) := lineTake t
        let (acc, rest) := contLoop fuel r
        ('\n' :: '\n' :: (l ++ acc), rest)
      else ([], s)
    | '\n' :: t =>
      if twoSpaces t then
        let (l, r) := lineTake t
        let (acc, rest) := contLoop fuel r
        ('\n' :: (l ++ acc), rest)
      else ([], s)
    | _ => ([], s)

/-- Try to match `_COMPLETED_BLOCK_RE` at the current (line-start) position:
`- [x] ` or `- [X] ` followed by at least one non-newline character, then the
continuation loop.  Returns the matched block and the remainder. -/
def matchBlock (s : List Char) : Option (List Char × List Char) :=
  match s with
  | '-' :: ' ' :: '[' :: c :: ']' :: ' ' :: rest =>
    if (c = 'x' || c = 'X') &&
        (match rest with
         | [] => false
         | r :: _ => decide (r ≠ '\n')) then
      let (l, r) := lineTake rest
      let (tail, rest2) := contLoop r.length r
      some ('-' :: ' ' :: '[' :: c :: ']' :: ' ' :: (l ++ tail), rest2)
    else none
  | _ => none

/-- Models `findall` scan for `_COMPLETED_BLOCK_RE`: with `re.MULTILINE`, matches can
only start at the beginning of the text or right after a newline; matches are
leftmost and non-overlapping, scanning resuming at each match's end. -/
def collectGo (fuel : Nat) (s : List Char) (atLineStart : Bool) :
    List (List Char) :=
  match fuel with
  | 0 => []
  | fuel + 1 =>
    match atLineStart, matchBlock s with
    | true, some (b, rest) => b :: collectGo fuel rest false
    | _, _ =>
      match s with
      | [] => []
      | '\n' :: t => collectGo fuel t true
      | _ :: t => collectGo fuel t false

/-- Models `_collect_completed_blocks(text)`: all completed-item blocks, in order. -/
def _collect_completed_blocks (text : List Char) : List (List Char) :=
  collectGo (text.length + 1) text true

/-- One step of `_remove_blocks`'s loop body,
`re.sub(re.escape(block) + r"\n?", "", text, count=1)`: delete the leftmost
occurrence of `block` together with one directly following newline. -/
def removeOnce (fuel : Nat) (block text : List Char) : List Char :=
  match fuel with
  | 0 => text
  | fuel + 1 =>
    if block.isPrefixOf text then
      match text.drop block.length with
      | '\n' :: r => r
      | r => r
    else
      match text with
      | [] => []
      | c :: t => c :: removeOnce fuel block t

/-- Models `re.sub(r"\n{3,}", "\n\n", text)`: collapse every maximal run of three or
more newlines down to exactly two. -/
def collapseNewlines (fuel : Nat) (s : List Char) : List Char :=
  match fuel with
  | 0 => s
  | fuel + 1 =>
    match s with
    | [] => []
    | '\n' :: rest =>
      let run := rest.takeWhile (· = '\n')
      if run.length + 1 ≥ 3 then
        '\n' :: '\n' :: collapseNewlines fuel (rest.dropWhile (· = '\n'))
      else
        '\n' :: collapseNewlines fuel rest
    | c :: rest => c :: collapseNewlines fuel rest

/-- Models `_remove_blocks(text, blocks)`: remove each block's leftmost occurrence
(plus one trailing newline) in order, then collapse blank lines. -/
def _remove_blocks (text : List Char) (blocks : List (List Char)) :
    List Char :=
  let t := blocks.foldl (fun acc b => removeOnce acc.length b acc) text
  collapseNewlines t.length t

/-- The insertion position computed by `_build_archive_content`'s
`month_section_pattern = re.compile(rf"({re.escape(month_header)}.*?)(### Completed\n+)", re.DOTALL)`:
the end of the first match, i.e. just past `### Completed` and the (greedy)
newline run following it, for the first occurrence of the month header that
is followed (lazily, at minimal distance) by `### Completed\n`. -/
def monthInsertPos (mh a : List Char) : Option Nat :=
  match a with
  | [] => none
  | _ :: t =>
    if mh.isPrefixOf a then
      match findSub ("### Completed\n".data) (a.drop mh.length) with
      | some j =>
        let afterLabel := a.drop (mh.length + j + "### Completed".length)
        some (mh.length + j + "### Completed".length +
              (afterLabel.takeWhile (· = '\n')).length)
      | none => (monthInsertPos mh t).map (· + 1)
    else (monthInsertPos mh t).map (· + 1)

/-- Models `"\n".join(blocks)`. -/
def joinNl : List (List Char) → List Char
  | [] => []
  | [b] => b
  | b :: bs => b ++ '\n' :: joinNl bs

/-- Models `_build_archive_content(archive_content, blocks, month_header)`. -/
def _build_archive_content (archiveContent : List Char)
    (blocks : List (List Char)) (monthHeader : List Char) : List Char :=
  let a :=
    if archiveContent.getLast? = some '\n' then archiveContent
    else archiveContent ++ ['\n']
  let a :=
    if containsSub monthHeader a then a
    else a ++ '\n' :: (monthHeader ++ "\n\n### Completed\n\n".data)
  let items := joinNl blocks ++ ['\n']
  match monthInsertPos monthHeader a with
  | some p => a.take p ++ items ++ a.drop p
  | none => a ++ items

/-- Models `archive_todos(todo_file=..., archive_file=...)`, modelled as a pure
function from the two file contents (and the current month string that the
source derives from `datetime.now()`) to the returned count and the new
contents of the two files.  When no completed block is collected the source
returns `0` before touching either file. -/
def archive_todos (currentMonth todo archive : List Char) :
    Nat × List Char × List Char :=
  let blocks := _collect_completed_blocks todo
  if blocks = [] then (0, todo, archive)
  else
    (blocks.length,
     _remove_blocks todo blocks,
     _build_archive_content archive blocks ("## ".data ++ currentMonth))

end ArchiveTodos

namespace WorkflowVersions

/-! ## `scripts/workflow_versions.py` -/

/-- Python truthiness of an `Optional[str]`: `None` and `""` are falsy. -/
def pyTruthy : Option String → Bool
  | none => false
  | some s => s ≠ ""

/-- Python's `a or b` on `Optional[str]` values. -/
def pyOr (a b : Option String) : Option String :=
  if pyTruthy a then a else b

/-- The `upgradable` computation of `scan_workflows` (source lines 544-547):
`current = resolved_tag or comment_tag` and
`upgradable = "yes" if current and latest_tag and current != latest_tag else ""`.
The comparison is plain string inequality. -/
def upgradableFlag (commentTag resolvedTag latestTag : Option String) :
    String :=
  let current := pyOr resolvedTag commentTag
  if pyTruthy current && pyTruthy latestTag && current ≠ latestTag then "yes"
  else ""

/-- The `stale` classification of `scan_workflows` (source lines 536-542). -/
def staleFlag (commentTag resolvedTag : Option String) (hasDesc : Bool) :
    String :=
  if pyTruthy commentTag && pyTruthy resolvedTag && commentTag ≠ resolvedTag
  then "yes"
  else if !pyTruthy commentTag && pyTruthy resolvedTag then "missing"
  else if !hasDesc && (pyTruthy commentTag || pyTruthy resolvedTag) then
    "no-desc"
  else ""

/-- Numeric value of an all-digit segment, as Python's `int(seg)`:
`none` when the segment is empty or contains a non-digit. -/
def parseNatSeg (s : List Char) : Option Nat :=
  if s ≠ [] && s.all Char.isDigit then
    some (s.foldl (fun n c => 10 * n + (c.toNat - '0'.toNat)) 0)
  else none

/-- Keep parsing numeric segments until the first failure. -/
def takeNums : List (Option Nat) → List Nat
  | [] => []
  | none :: _ => []
  | some n :: t => n :: takeNums t

/-- Modelled from the spec: `_normalize_version` of the final-generation
`scripts/workflow_versions.py` is not present under `src/` (only its unit
tests in `tests/unit/test_workflow_versions.py` are).  Per the spec
(`vX.Y[.Z[.W]]`): strip a leading `v`, split on dots, keep each segment's
numeric value up to but not including the first segment that is not fully
numeric after dropping a `-suffix` (truncation at the last fully numeric
segment), and pad with zeros up to three segments.  The unit tests pin
`v4 ↦ (4,0,0)`, `v4.2 ↦ (4,2,0)`, `v1.2.3.4 ↦ (1,2,3,4)`,
`v1.2.3-beta ↦ (1,2,3)` and `"" ↦ (0,0,0)`, all satisfied here. -/
def _normalize_version (tag : String) : List Nat :=
  let s := match tag.data with
           | 'v' :: t => t
           | t => t
  let nums := takeNums
    ((splitOnChar '.' s).map (fun seg => parseNatSeg (seg.takeWhile (· ≠ '-'))))
  nums ++ List.replicate (3 - nums.length) 0

/-- Modelled from the spec: `_versions_equal` compares normalized versions
with missing segments treated as zero, so the shorter tuple is zero-padded
to the longer one's length before comparison. -/
def _versions_equal (a b : String) : Bool :=
  let x := _normalize_version a
  let y := _normalize_version b
  let n := max x.length y.length
  (x ++ List.replicate (n - x.length) 0) =
    (y ++ List.replicate (n - y.length) 0)

/-! ### The GitHub API helper `_gh_api` (source lines 148-195) -/

/-- The possible outcomes of the `urllib` request inside `_gh_api`, mirroring
the `try`/`except` arms of the source: a body successfully read (whose JSON
parse either succeeds with a payload or fails, modelling
`json.JSONDecodeError`), an `HTTPError` with a status code, a `URLError`
with a reason, or a `TimeoutError`. -/
inductive GhOutcome where
  | ok (parsed : Option String)
  | httpError (code : Nat)
  | urlError (reason : String)
  | timedOut
deriving DecidableEq

/-- Models `_gh_api(url)`: result and the lines printed to stderr.  Every failure
arm returns `None` (here `none`); the function is total, so no exception
escapes the API layer. -/
def _gh_api (url : String) (o : GhOutcome) : Option String × List String :=
  match o with
  | .ok p => (p, [])
  | .httpError c =>
    if c = 403 then
      (none,
       ["  [!] GitHub API rate limit reached. Set GITHUB_TOKEN env var for 5,000 req/hr (current: 60/hr unauthenticated)."])
    else if c = 404 then (none, [])
    else (none, ["  [!] GitHub API error: HTTP " ++ toString c ++ " for " ++ url])
  | .urlError reason => (none, ["  [!] Network error: " ++ reason])
  | .timedOut => (none, ["  [!] GitHub API request timed out."])

/-! ### Tag resolution (`_resolve_tag` and helpers, source lines 198-291)

The GitHub API is modelled as an oracle; every call made by the resolver is
recorded in a request log so that "no paged tag-listing request is issued"
is expressible. -/

/-- One GitHub API request issued by the tag resolver. -/
inductive Req where
  | matchingRefs (slug tag : String)
  | gitTags (slug tagObjSha : String)
  | tagsPage (slug : String) (page : Nat)
deriving DecidableEq

/-- Is the request a paged tag-listing request
(`/tags?per_page=100&page=N`)? -/
def Req.isTagsPage : Req → Bool
  | .tagsPage _ _ => true
  | _ => false

/-- One entry of the `matching-refs` response: `ref.get("ref", "")`,
`object.sha` and `object.type` (absent keys default to `""`). -/
structure RefObj where
  ref : String
  objSha : String
  objType : String
deriving DecidableEq

/-- One entry of the `/tags` response: `name` and `commit.sha`. -/
structure TagInfo where
  name : String
  commitSha : String
deriving DecidableEq

/-- The GitHub API oracle: `refs` is the `matching-refs` endpoint (`none`
models a failed call or a non-list response), `peel` the result of
`_peel_to_commit`'s lookup of `/git/tags/{sha}` (`none` models failure or a
missing `object.sha`), and `tags` a page of `/tags?per_page=100&page=N`. -/
structure Gh where
  refs : String → String → Option (List RefObj)
  peel : String → String → Option String
  tags : String → Nat → Option (List TagInfo)

/-- Models `str.removeprefix`. -/
def removePrefixStr (p s : String) : String :=
  if p.data.isPrefixOf s.data then ⟨s.data.drop p.data.length⟩ else s

/-- Models `_peel_to_commit(repo_slug, tag_obj_sha)` with its request log. -/
def _peel_to_commit (gh : Gh) (slug tagObjSha : String) :
    Option String × List Req :=
  (gh.peel slug tagObjSha, [.gitTags slug tagObjSha])

/-- The `for ref in data` loop of `_tag_points_at`: skip refs whose name
differs, succeed on a direct sha match, peel-and-return on an annotated tag
object, otherwise continue. -/
def tagPointsAtLoop (gh : Gh) (slug tag sha : String) :
    List RefObj → Bool × List Req
  | [] => (false, [])
  | r :: rs =>
    let refName := removePrefixStr "refs/tags/" r.ref
    if refName ≠ tag then tagPointsAtLoop gh slug tag sha rs
    else if r.objSha = sha then (true, [])
    else if r.objType = "tag" then
      let (c, l) := _peel_to_commit gh slug r.objSha
      (c == some sha, l)
    else tagPointsAtLoop gh slug tag sha rs

/-- Models `_tag_points_at(repo_slug, tag_name, sha)` with its request log. -/
def _tag_points_at (gh : Gh) (slug tag sha : String) : Bool × List Req :=
  match gh.refs slug tag with
  | none => (false, [.matchingRefs slug tag])
  | some refs =>
    let (b, l) := tagPointsAtLoop gh slug tag sha refs
    (b, .matchingRefs slug tag :: l)

/-- Number of `'.'` characters in a string (`t.count(".")`). -/
def countDots (s : String) : Nat :=
  s.data.countP (· = '.')

/-- Models `matching.sort(key=lambda t: t.count("."), reverse=True)` followed by
`matching[0]`: Python's sort is stable, so this selects the first element
whose dot count equals the maximum. -/
def pickFirstMaxDots (l : List String) : Option String :=
  l.foldl
    (fun best t =>
      match best with
      | none => some t
      | some b => if countDots t > countDots b then some t else best)
    none

/-- The `for page in range(1, 6)` loop of `_resolve_tag_from_tags_api`,
recursing on the number of remaining pages. -/
def resolveFromTagsGo (gh : Gh) (slug sha : String) :
    Nat → Nat → Option String × List Req
  | _, 0 => (none, [])
  | page, fuel + 1 =>
    match gh.tags slug page with
    | none => (none, [.tagsPage slug page])
    | some [] => (none, [.tagsPage slug page])
    | some data =>
      let matching := (data.filter (fun ti => ti.commitSha = sha)).map (·.name)
      if matching ≠ [] then (pickFirstMaxDots matching, [.tagsPage slug page])
      else if data.length < 100 then (none, [.tagsPage slug page])
      else
        let (r, l) := resolveFromTagsGo gh slug sha (page + 1) fuel
        (r, .tagsPage slug page :: l)

/-- Models `_resolve_tag_from_tags_api(repo_slug, sha)`: scan up to five pages of
100 tags. -/
def _resolve_tag_from_tags_api (gh : Gh) (slug sha : String) :
    Option String × List Req :=
  resolveFromTagsGo gh slug sha 1 5

/-- Models `_repo_slug(action)`: first two `/`-separated components.  (The source
indexes `parts[0]`/`parts[1]` directly; actions produced by the `uses:`
regex always have at least two components.) -/
def _repo_slug (action : String) : String :=
  let parts := splitOnChar '/' action.data
  ⟨(parts.getD 0 []) ++ '/' :: parts.getD 1 []⟩

/-- Models `_resolve_tag(owner_repo, sha, hint_tag=...)`: verify the hint tag first
(strategy 1) and only fall back to the paged tag scan (strategy 2) when
there is no truthy hint or verification fails. -/
def _resolve_tag (gh : Gh) (ownerRepo sha : String)
    (hintTag : Option String) : Option String × List Req :=
  let slug := _repo_slug ownerRepo
  match hintTag with
  | some t =>
    if t = "" then _resolve_tag_from_tags_api gh slug sha
    else
      let bl := _tag_points_at gh slug t sha
      if bl.1 then (some t, bl.2)
      else
        let rl := _resolve_tag_from_tags_api gh slug sha
        (rl.1, bl.2 ++ rl.2)
  | none => _resolve_tag_from_tags_api gh slug sha

/-! ### The disk cache wrapper `_cached_gh_api` -/

/-- A disk cache: one entry per URL, `(url, stored-at timestamp, payload)`. -/
def Cache := List (String × Nat × String)

/-- Look up a fresh cache entry for `url`: an entry whose age `now - stored`
is strictly below the TTL (a TTL of `0` therefore always bypasses the
cache). -/
def cacheLookup (ttl now : Nat) (cache : Cache) (url : String) :
    Option String :=
  ((cache.find? (fun e => e.1 == url && decide (now - e.2.1 < ttl))).map
    (fun e => e.2.2))

/-- Modelled from the spec: the caching helper `_cached_gh_api` (with
`_CACHE_DIR` and `_CACHE_TTL`) of the final-generation
`scripts/workflow_versions.py` is not present under `src/`; only its unit
tests in `tests/unit/test_workflow_versions.py` are.  Per the spec, all
outbound GitHub API calls are funneled through this helper: it first
consults the on-disk cache keyed by the request URL honoring the TTL, and
stores a response if and only if it is a non-null success, so failures are
retried on the next invocation.  The third component records whether the
underlying `_gh_api` was invoked. -/
def _cached_gh_api (api : String → Option String) (ttl now : Nat)
    (cache : Cache) (url : String) : Option String × Cache × Bool :=
  match cacheLookup ttl now cache url with
  | some v => (some v, cache, false)
  | none =>
    match api url with
    | some v =>
      (some v, (url, now, v) :: cache.filter (fun e => e.1 ≠ url), true)
    | none => (none, cache, true)

/-! ### The `uses:` line regex and the comment rewriter
(`_USES_RE`, source lines 63-77, and `update_comments`, lines 664-777) -/

/-- A character of the `[A-Za-z0-9._-]` class of `_USES_RE`. -/
def isActionChar (c : Char) : Bool :=
  (('A' ≤ c && c ≤ 'Z') || ('a' ≤ c && c ≤ 'z') || ('0' ≤ c && c ≤ '9')) ||
    c = '.' || c = '_' || c = '-'

/-- A hexadecimal digit (`[0-9a-fA-F]`). -/
def isHexChar (c : Char) : Bool :=
  ('0' ≤ c && c ≤ '9') || ('a' ≤ c && c ≤ 'f') || ('A' ≤ c && c ≤ 'F')

/-- The named groups of a successful `_USES_RE` match. -/
structure UsesMatch where
  indent : List Char
  action : List Char
  ref : List Char
  trail : List Char
deriving DecidableEq

/-- Does the action token have the structure
`owner/repo(/sub)*` required by `_USES_RE` (at least two nonempty
`/`-separated components)? -/
def validAction (tok : List Char) : Bool :=
  let ps := splitOnChar '/' tok
  ps.length ≥ 2 && ps.all (· ≠ [])

/-- Hand-compiled `_USES_RE.match(line)` for a newline-free line:
`^(\s*)-?\s*uses:\s*(action)@([0-9a-fA-F]{40})(.*)$`. -/
def usesMatch (line : List Char) : Option UsesMatch :=
  let indent := line.takeWhile isPySpace
  let s1 := line.dropWhile isPySpace
  let s2 := match s1 with
            | '-' :: t => t.dropWhile isPySpace
            | t => t
  if "uses:".data.isPrefixOf s2 then
    let s3 := (s2.drop 5).dropWhile isPySpace
    let tok := s3.takeWhile (fun c => isActionChar c || c = '/')
    if validAction tok then
      match s3.drop tok.length with
      | '@' :: r =>
        let sha := r.take 40
        if sha.length = 40 && sha.all isHexChar then
          some ⟨indent, tok, sha, r.drop 40⟩
        else none
      | _ => none
    else none
  else none

/-- Generic `re.sub(pattern, repl, s, count=1)` driver for a pattern
hand-compiled into a matcher returning the match length at the current
position: replace the leftmost match, leave the text unchanged when there
is none. -/
def subOnce (m : List Char → Option Nat) (repl : List Char) :
    Nat → List Char → List Char
  | 0, s => s
  | fuel + 1, s =>
    match m s with
    | some n => repl ++ s.drop n
    | none =>
      match s with
      | [] => []
      | c :: t => c :: subOnce m repl fuel t

/-- Matcher for `\(v?\d+\.\d+[\.\d]*\)`: an opening paren, an optional `v`,
one or more digits, a dot, one or more digits, any run of digits and dots,
and a closing paren.  Returns the match length. -/
def matchParenVersionTail (t : List Char) : Option Nat :=
  let t1 := match t with
            | 'v' :: r => r
            | r => r
  let d1 := t1.takeWhile Char.isDigit
  if d1 = [] then none
  else
    match t1.drop d1.length with
    | '.' :: t3 =>
      let d2 := t3.takeWhile Char.isDigit
      if d2 = [] then none
      else
        let t4 := t3.drop d2.length
        let run := t4.takeWhile (fun c => c.isDigit || c = '.')
        match t4.drop run.length with
        | ')' :: _ =>
          some ((t.length - t1.length) + d1.length + 1 + d2.length +
                run.length + 2)
        | _ => none
    | _ => none

def matchParenVersion (s : List Char) : Option Nat :=
  match s with
  | c0 :: t => if c0 = '(' then matchParenVersionTail t else none
  | [] => none

/-- Matcher for `#\s*v?\S+.*`: a hash, optional whitespace, at least one
non-whitespace character, then the rest of the line (`.` does not match a
newline).  Returns the match length. -/
def matchHashRest (s : List Char) : Option Nat :=
  match s with
  | c0 :: t =>
    if c0 = '#' then
      let t2 := t.dropWhile isPySpace
      if t2 = [] then none
      else
        some (1 + (t.length - t2.length) + (t2.takeWhile (· ≠ '\n')).length)
    else none
  | [] => none

/-- Matcher for `#\s*v?\S+`: a hash, optional whitespace, and a maximal
nonempty run of non-whitespace characters.  Returns the match length. -/
def matchHashToken (s : List Char) : Option Nat :=
  match s with
  | c0 :: t =>
    if c0 = '#' then
      let t2 := t.dropWhile isPySpace
      if t2 = [] then none
      else
        some (1 + (t.length - t2.length) +
              (t2.takeWhile (fun c => !isPySpace c)).length)
    else none
  | [] => none

/-- The trailing-comment computation of `update_comments`'s per-line rewrite
(source lines 730-760): given the matched `trail`, the resolved `new_tag`,
whether the existing comment already has a description, and the fetched
description (`desc = desc_cache.get(action) if not has_desc else None`). -/
def newTrailOf (trail newTag : List Char) (hasDesc : Bool)
    (desc : Option (List Char)) : List Char :=
  let descUsed := if hasDesc then none else desc
  if trail.contains '#' then
    if hasDesc then
      subOnce matchParenVersion ('(' :: (newTag ++ [')'])) trail.length trail
    else
      match descUsed with
      | some d =>
        subOnce matchHashRest
          ('#' :: ' ' :: (d ++ ' ' :: '(' :: (newTag ++ [')'])))
          trail.length trail
      | none =>
        subOnce matchHashToken ('#' :: ' ' :: newTag) trail.length trail
  else
    match descUsed with
    | some d => ' ' :: '#' :: ' ' :: (d ++ ' ' :: '(' :: (newTag ++ [')']))
    | none => ' ' :: '#' :: ' ' :: newTag

/-- The reconstructed line prefix of the rewrite's f-string
`f"{indent}{dash}uses: {action}@{ref}"`: everything up to and including the
SHA, with the action reference and the 40-character SHA reproduced verbatim
from the match. -/
def linePrefixOf (line : List Char) (m : UsesMatch) : List Char :=
  m.indent ++
    (if (line.dropWhile isPySpace).head? = some '-' then ['-', ' '] else [])
    ++ "uses: ".data ++ m.action ++ '@' :: m.ref

/-- The per-line rewrite of `update_comments` (source lines 720-767), for a
line that is being synced: given the resolved `new_tag`, whether the
existing comment already has a description, and the fetched description,
produce the new line (without its trailing newline).  Returns `none` when
`_USES_RE` does not match, which the source skips with `continue`. -/
def updateLine (line newTag : List Char) (hasDesc : Bool)
    (desc : Option (List Char)) : Option (List Char) :=
  match usesMatch line with
  | none => none
  | some m =>
    some (m.indent ++
      (if (line.dropWhile isPySpace).head? = some '-' then ['-', ' '] else [])
      ++ "uses: ".data ++ m.action ++ '@' ::
        (m.ref ++ newTrailOf m.trail newTag hasDesc desc))

/-! ### The `update_comments` file loop (source lines 674-777) -/

/-- One row of `scan_workflows` output, restricted to the fields
`update_comments` reads. -/
structure Row where
  file : String
  line : Nat
  action : String
  commentTag : Option (List Char)
  resolvedTag : Option (List Char)
  stale : String
  hasDesc : Bool

/-- Python truthiness of an optional string as a character list. -/
def pyTruthyL : Option (List Char) → Bool
  | none => false
  | some s => s ≠ []

/-- Models `r["resolved_tag"] or r["comment_tag"] or ""`. -/
def rowTag (r : Row) : List Char :=
  if pyTruthyL r.resolvedTag then r.resolvedTag.getD []
  else if pyTruthyL r.commentTag then r.commentTag.getD []
  else []

/-- Append a row to its file's group, preserving the first-appearance order
of files (Python dict insertion order in `by_file`). -/
def groupInsert (groups : List (String × List Row)) (f : String) (r : Row) :
    List (String × List Row) :=
  match groups with
  | [] => [(f, [r])]
  | (g, rs) :: t =>
    if g = f then (g, rs ++ [r]) :: t else (g, rs) :: groupInsert t f r

/-- The `by_file` grouping: rows with a truthy tag whose `stale` flag is
`"yes"`, `"missing"` or `"no-desc"`. -/
def byFile (rows : List Row) : List (String × List Row) :=
  rows.foldl
    (fun gs r =>
      if rowTag r ≠ [] &&
          (r.stale = "yes" || r.stale = "missing" || r.stale = "no-desc")
      then groupInsert gs r.file r
      else gs)
    []

/-- Models `text.splitlines(keepends=True)` for `\n`-separated text (the source
reads files in text mode, so platform line endings are already translated to
`\n`). -/
def splitlinesKeepends (fuel : Nat) (s : List Char) : List (List Char) :=
  match fuel with
  | 0 => if s = [] then [] else [s]
  | fuel + 1 =>
    match s with
    | [] => []
    | _ =>
      let (l, r) := lineTake s
      match r with
      | '\n' :: r2 => (l ++ ['\n']) :: splitlinesKeepends fuel r2
      | _ => [l]

/-- Insert into the per-file `updates` dict keyed by line number: first
insertion fixes the position, a later insertion with the same key overwrites
the value. -/
def updInsert (us : List (Nat × List Char × String × Bool)) (k : Nat)
    (v : List Char × String × Bool) : List (Nat × List Char × String × Bool) :=
  match us with
  | [] => [(k, v)]
  | (k0, v0) :: t =>
    if k0 = k then (k0, v) :: t else (k0, v0) :: updInsert t k v

/-- Build the `updates` lookup of `update_comments`:
`lineno -> (tag, action, has_desc)` for rows with a nonzero line and a
truthy tag. -/
def buildUpdates (rows : List Row) :
    List (Nat × List Char × String × Bool) :=
  rows.foldl
    (fun us r =>
      if r.line ≠ 0 && rowTag r ≠ [] then
        updInsert us r.line (rowTag r, r.action, r.hasDesc)
      else us)
    []

/-- Models `line.rstrip("\n")`. -/
def rstripNl (l : List Char) : List Char :=
  (l.reverse.dropWhile (· = '\n')).reverse

/-- The per-file update loop of `update_comments`: apply each recorded
update to its line (skipping out-of-range indices and non-matching lines),
counting the lines actually changed. -/
def applyUpdates (descOf : String → Option (List Char))
    (lines : List (List Char))
    (us : List (Nat × List Char × String × Bool)) :
    Nat × List (List Char) :=
  us.foldl
    (fun acc u =>
      let idx := u.1 - 1
      if idx < acc.2.length then
        let old := acc.2.getD idx []
        match updateLine (rstripNl old) u.2.1 u.2.2.2
            (if u.2.2.2 then none else descOf u.2.2.1) with
        | none => acc
        | some nl =>
          let newLine := nl ++ ['\n']
          if newLine ≠ old then (acc.1 + 1, acc.2.set idx newLine) else acc
      else acc)
    (0, lines)

/-- The per-file loop of `update_comments`.  Reading a file is modelled by
the map `fs`; as in the source, where `wf_path.read_text` is called without
any exception handling, a missing file raises — modelled by `Except.error`
aborting the whole fold, so no remaining file gets processed. -/
def processGroups (fs : String → Option (List Char))
    (descOf : String → Option (List Char)) :
    List (String × List Row) → Except String Nat
  | [] => .ok 0
  | (fname, frs) :: rest =>
    match fs fname with
    | none =>
      .error ("FileNotFoundError: [Errno 2] No such file or directory: " ++
              fname)
    | some text =>
      let lines := splitlinesKeepends text.length text
      let modified := (applyUpdates descOf lines (buildUpdates frs)).1
      match processGroups fs descOf rest with
      | .ok n => .ok (modified + n)
      | .error e => .error e

/-- Models `update_comments(rows)` (modulo the description-fetch printing, which is
modelled by the `descOf` map): group rows by file and rewrite each file's
comments, returning the total number of modified lines — or the propagated
exception from an unreadable file. -/
def update_comments (fs : String → Option (List Char))
    (descOf : String → Option (List Char)) (rows : List Row) :
    Except String Nat :=
  let groups := byFile rows
  if groups.isEmpty then .ok 0 else processGroups fs descOf groups

/-! ### Concrete instances used for evaluation -/

/-- A 40-hex-digit SHA. -/
def shaA : String := "aaaaaaaaaaaaaaaaaaaaaaaaaaaaaaaaaaaaaaaa"

/-- A GitHub oracle whose `matching-refs` endpoint knows the lightweight tag
`v4` of `actions/checkout` pointing at `shaA`, and nothing else. -/
def gh0 : Gh :=
  ⟨fun s t =>
    if s = "actions/checkout" && t = "v4" then
      some [⟨"refs/tags/v4", shaA, "commit"⟩]
    else none,
   fun _ _ => none,
   fun _ _ => none⟩

/-- A filesystem holding `ok.yml` but not `gone.yml` (deleted between scan
and write). -/
def fs9 : String → Option (List Char) := fun f =>
  if f = "ok.yml" then
    some ("      - uses: actions/checkout@" ++ shaA ++ " # v3.0.0\n").data
  else none

/-- A scan row whose file has been deleted between scan and write. -/
def rowGone : Row :=
  ⟨"gone.yml", 1, "actions/checkout", some "v3.0.0".data,
   some "v4.0.0".data, "yes", false⟩

/-- A scan row whose file is still readable. -/
def rowOk : Row :=
  ⟨"ok.yml", 1, "actions/checkout", some "v3.0.0".data,
   some "v4.2.0".data, "yes", false⟩

end WorkflowVersions

namespace RepoLinks

/-! ## `mkdocs-hooks/repo_links.py`

The hook's regular expressions are hand-compiled to character-level
scanners; the placeholder machinery of `_protect`/`_restore` is modelled
verbatim (placeholders are `"\x00PROT{n}\x00"`). -/

/-- The NUL character of `_PLACEHOLDER_PREFIX`/`_PLACEHOLDER_SUFFIX`. -/
def nulC : Char := Char.ofNat 0

/-- A backtick. -/
def btick : Char := Char.ofNat 96

/-- A single-quote character. -/
def sqC : Char := Char.ofNat 39

/-- Models `_EXTENSIONLESS_FILES`. -/
def extensionlessFiles : List (List Char) :=
  ["Containerfile".data, "Dockerfile".data, "Gemfile".data, "LICENSE".data,
   "Makefile".data, "Procfile".data, "Rakefile".data, "Taskfile".data,
   "Vagrantfile".data]

/-- The placeholder key `f"{_PLACEHOLDER_PREFIX}{counter}{_PLACEHOLDER_SUFFIX}"`. -/
def mkKey (n : Nat) : List Char :=
  nulC :: ("PROT".data ++ (toString n).data ++ [nulC])

/-- The placeholder substitution state of `_protect`: the counter and the
`placeholders` mapping in insertion order. -/
structure ProtectSt where
  counter : Nat
  placeholders : List (List Char × List Char)

/-- Matcher for `_INLINE_CODE_RE` (`` `[^`\n]+` ``): a backtick, one or more
characters that are neither backtick nor newline, and a closing backtick. -/
def inlineCodeLen (s : List Char) : Option Nat :=
  match s with
  | c :: t =>
    if c = btick then
      let run := t.takeWhile (fun d => d ≠ btick && d ≠ '\n')
      if run ≠ [] && (t.drop run.length).head? = some btick then
        some (run.length + 2)
      else none
    else none
  | [] => none

/-- Matcher for `_HTML_COMMENT_RE` (`<!--[\s\S]*?-->`): lazily find the
earliest closing `-->`. -/
def htmlCommentLen (s : List Char) : Option Nat :=
  if "<!--".data.isPrefixOf s then
    match findSub ("-->".data) (s.drop 4) with
    | some j => some (4 + j + 3)
    | none => none
  else none

/-- Scan for the closing line of a fenced block: the earliest `\n` followed
by the delimiter run, optional spaces/tabs and a line end
(`\n\1[ \t]*$`).  Returns the number of characters consumed from the scan
start through the closing run and trailing blanks (the `$` is zero-width). -/
def fencedCloseScan (d : List Char) : List Char → Option Nat
  | [] => none
  | '\n' :: t =>
    if d.isPrefixOf t then
      let rest := t.drop d.length
      let sp := rest.takeWhile (fun c => c = ' ' || c = '\t')
      match rest.drop sp.length with
      | [] => some (1 + d.length + sp.length)
      | '\n' :: _ => some (1 + d.length + sp.length)
      | _ => (fencedCloseScan d t).map (· + 1)
    else (fencedCloseScan d t).map (· + 1)
  | _ :: t => (fencedCloseScan d t).map (· + 1)

/-- Try fence delimiter lengths from the greedy maximum down to 3
(the backtracking order of `(`{3,}|~{3,})` with a backreference close). -/
def fencedTryLens (c : Char) (s : List Char) : Nat → Option Nat
  | 0 => none
  | 1 => none
  | 2 => none
  | n + 3 =>
    let len := n + 3
    let rest := s.drop len
    let (l, r) := lineTake rest
    match r with
    | '\n' :: body =>
      match fencedCloseScan (List.replicate len c) body with
      | some m => some (len + l.length + 1 + m)
      | none => fencedTryLens c s (n + 2)
    | _ => fencedTryLens c s (n + 2)

/-- Matcher for `_FENCED_RE`
(`^(`{3,}|~{3,})[^\n]*\n[\s\S]*?\n\1[ \t]*$`, multiline), applicable only at
a line start. -/
def fencedMatchLen (s : List Char) : Option Nat :=
  match s.head? with
  | some c =>
    if c = btick || c = '~' then
      let k := (s.takeWhile (· = c)).length
      if k ≥ 3 then fencedTryLens c s k else none
    else none
  | none => none

/-- Models `re.sub` with the placeholder-substitution callback of `_protect`, for
an unanchored pattern: every match is replaced by a fresh placeholder key
and recorded. -/
def protectScan (m : List Char → Option Nat) :
    Nat → List Char → ProtectSt → List Char × ProtectSt
  | 0, s, st => (s, st)
  | fuel + 1, s, st =>
    match m s with
    | some n =>
      let key := mkKey st.counter
      let (out, st') := protectScan m fuel (s.drop n)
        ⟨st.counter + 1, st.placeholders ++ [(key, s.take n)]⟩
      (key ++ out, st')
    | none =>
      match s with
      | [] => ([], st)
      | c :: t =>
        let (out, st') := protectScan m fuel t st
        (c :: out, st')

/-- As `protectScan`, for a multiline pattern anchored at line starts. -/
def protectScanML (m : List Char → Option Nat) :
    Nat → List Char → Bool → ProtectSt → List Char × ProtectSt
  | 0, s, _, st => (s, st)
  | fuel + 1, s, atLineStart, st =>
    match (if atLineStart then m s else none) with
    | some n =>
      let key := mkKey st.counter
      let (out, st') := protectScanML m fuel (s.drop n) false
        ⟨st.counter + 1, st.placeholders ++ [(key, s.take n)]⟩
      (key ++ out, st')
    | none =>
      match s with
      | [] => ([], st)
      | '\n' :: t =>
        let (out, st') := protectScanML m fuel t true st
        ('\n' :: out, st')
      | c :: t =>
        let (out, st') := protectScanML m fuel t false st
        (c :: out, st')

/-- Models `_protect(markdown)`: fenced code blocks first, then inline code spans,
then HTML comments. -/
def _protect (markdown : List Char) :
    List Char × List (List Char × List Char) :=
  let (t1, st1) := protectScanML fencedMatchLen (markdown.length + 1)
    markdown true ⟨0, []⟩
  let (t2, st2) := protectScan inlineCodeLen (t1.length + 1) t1 st1
  let (t3, st3) := protectScan htmlCommentLen (t2.length + 1) t2 st2
  (t3, st3.placeholders)

/-- Python `str.replace`: replace every (leftmost, non-overlapping)
occurrence of `pat`. -/
def replaceAll (pat repl : List Char) : Nat → List Char → List Char
  | 0, s => s
  | fuel + 1, s =>
    if pat ≠ [] && pat.isPrefixOf s then
      repl ++ replaceAll pat repl fuel (s.drop pat.length)
    else
      match s with
      | [] => []
      | c :: t => c :: replaceAll pat repl fuel t

/-- Models `_restore(text, placeholders)`: replace each key with its original
content, in insertion order. -/
def _restore (text : List Char)
    (placeholders : List (List Char × List Char)) : List Char :=
  placeholders.foldl
    (fun t kv => replaceAll kv.1 kv.2 (t.length + 1) t) text

/-! ### Path resolution (`posixpath` and `_resolve_and_rewrite`) -/

/-- Models `str.rstrip("/")`. -/
def rstripSlashes (s : List Char) : List Char :=
  (s.reverse.dropWhile (· = '/')).reverse

/-- Models `posixpath.basename(p)`: everything after the last slash. -/
def posixBasename (p : List Char) : List Char :=
  match p.reverse.findIdx? (· = '/') with
  | none => p
  | some j => (p.reverse.take j).reverse

/-- Models `posixpath.dirname(p)`. -/
def posixDirname (p : List Char) : List Char :=
  match p.reverse.findIdx? (· = '/') with
  | none => []
  | some j =>
    let head := p.take (p.length - j)
    if head ≠ [] && !head.all (· = '/') then rstripSlashes head else head

/-- Models `posixpath.join(a, b)` for two components. -/
def posixJoin (a b : List Char) : List Char :=
  if b.head? = some '/' then b
  else if a = [] || a.getLast? = some '/' then a ++ b
  else a ++ '/' :: b

/-- Models `posixpath.normpath(p)`. -/
def posixNormpath (p : List Char) : List Char :=
  if p = [] then ['.']
  else
    let initialSlashes : Nat :=
      if p.head? = some '/' then
        if "//".data.isPrefixOf p && !("///".data.isPrefixOf p) then 2 else 1
      else 0
    let comps := splitOnChar '/' p
    let newComps := comps.foldl
      (fun (acc : List (List Char)) comp =>
        if comp = [] || comp = ['.'] then acc
        else if comp ≠ "..".data ||
            (initialSlashes = 0 && acc.isEmpty) ||
            (acc.getLast? = some "..".data) then acc ++ [comp]
        else if !acc.isEmpty then acc.dropLast
        else acc)
      []
    let out := List.replicate initialSlashes '/' ++
      List.intercalate ['/'] newComps
    if out = [] then ['.'] else out

/-- Models `re.sub(r"^(\.\./)+", "", resolved)`: strip every leading `../`. -/
def stripLeadDotDot : Nat → List Char → List Char
  | 0, s => s
  | fuel + 1, s =>
    if "../".data.isPrefixOf s then stripLeadDotDot fuel (s.drop 3) else s

/-- Models `_is_likely_file(path)`. -/
def _is_likely_file (path : List Char) : Bool :=
  let basename := posixBasename (rstripSlashes path)
  basename.contains '.' || extensionlessFiles.contains basename

/-- Models `_build_github_url(repo_url, repo_path, suffix, branch)`. -/
def _build_github_url (repoUrl repoPath suffix branch : List Char) :
    List Char :=
  let clean := rstripSlashes repoPath
  let kind := if _is_likely_file clean then "blob".data else "tree".data
  repoUrl ++ '/' :: (kind ++ '/' :: (branch ++ '/' :: (clean ++ suffix)))

/-- Models `_split_target(target)`: split off the query string and/or fragment. -/
def _split_target (target : List Char) : List Char × List Char :=
  if target.contains '?' then
    let path := target.takeWhile (· ≠ '?')
    let rest := target.drop (path.length + 1)
    if rest.contains '#' then
      let q := rest.takeWhile (· ≠ '#')
      let f := rest.drop (q.length + 1)
      (path, '?' :: (q ++ '#' :: f))
    else (path, '?' :: rest)
  else if target.contains '#' then
    let path := target.takeWhile (· ≠ '#')
    let f := target.drop (path.length + 1)
    (path, '#' :: f)
  else (target, [])

/-- Models `_resolve_and_rewrite(target, page_dir, repo_url, branch)`: `none` when
the resolved path stays inside `docs/`. -/
def _resolve_and_rewrite (target pageDir repoUrl branch : List Char) :
    Option (List Char) :=
  let (path, suffix) := _split_target target
  let resolved := posixNormpath (posixJoin pageDir path)
  if !("..".data.isPrefixOf resolved) then none
  else
    let repoPath := stripLeadDotDot (resolved.length + 1) resolved
    let repoPath :=
      if path.getLast? = some '/' then repoPath ++ ['/'] else repoPath
    some (_build_github_url repoUrl repoPath suffix branch)

/-! ### The three link-rewriting passes -/

/-- The per-page rewriting context. -/
structure Ctx where
  pageDir : List Char
  repoUrl : List Char
  branch : List Char

/-- Matcher for `_LINK_RE` (`(?<!!)\[([^\]]*)\]\((\.\./[^)]*)\)`) at the
current position (the lookbehind is checked by the caller): returns the link
text, the target and the total match length. -/
def mdLinkMatch (s : List Char) : Option (List Char × List Char × Nat) :=
  match s with
  | '[' :: t =>
    let txt := t.takeWhile (· ≠ ']')
    match t.drop txt.length with
    | ']' :: '(' :: rest =>
      if "../".data.isPrefixOf rest then
        let tgt := rest.takeWhile (· ≠ ')')
        match rest.drop tgt.length with
        | ')' :: _ => some (txt, tgt, txt.length + tgt.length + 4)
        | _ => none
      else none
    | _ => none
  | _ => none

/-- The `_LINK_RE.sub(_rewrite_md, markdown)` pass.  `prev` is the original
character before the current position, for the `(?<!!)` lookbehind. -/
def subMdLinks (ctx : Ctx) : Nat → Option Char → List Char → List Char
  | 0, _, s => s
  | fuel + 1, prev, s =>
    match s with
    | [] => []
    | c :: t =>
      if c = '[' && prev ≠ some '!' then
        match mdLinkMatch s with
        | some (txt, tgt, n) =>
          let piece :=
            match _resolve_and_rewrite tgt ctx.pageDir ctx.repoUrl ctx.branch
            with
            | none => s.take n
            | some url => '[' :: (txt ++ ']' :: '(' :: (url ++ [')']))
          piece ++ subMdLinks ctx fuel (some ')') (s.drop n)
        | none => c :: subMdLinks ctx fuel (some c) t
      else c :: subMdLinks ctx fuel (some c) t

/-- The `href\s*=\s*["'](\.\./[^"']*)\2([^>]*>)` tail of `_HTML_HREF_RE`,
tried at one candidate position inside the tag: returns the matched
`href\s*=\s*` text (original case), the quote, the target and the
`[^>]*>` tail. -/
def hrefAt (s : List Char) : Option (List Char × Char × List Char × List Char) :=
  if (s.take 4).map Char.toLower = "href".data then
    let r1 := s.drop 4
    let ws1 := r1.takeWhile isPySpace
    match r1.drop ws1.length with
    | '=' :: r2 =>
      let ws2 := r2.takeWhile isPySpace
      match r2.drop ws2.length with
      | q :: r3 =>
        if q = '"' || q = sqC then
          if "../".data.isPrefixOf r3 then
            let tgt := r3.takeWhile (fun c => c ≠ '"' && c ≠ sqC)
            match r3.drop tgt.length with
            | q2 :: r4 =>
              if q2 = q then
                let run := r4.takeWhile (· ≠ '>')
                match r4.drop run.length with
                | '>' :: _ =>
                  some (s.take 4 ++ ws1 ++ '=' :: ws2, q, tgt, run ++ ['>'])
                | _ => none
              else none
            | [] => none
          else none
        else none
      | [] => none
    | _ => none
  else none

/-- The lazy `[^>]*?` gap of `_HTML_HREF_RE`: extend the gap one non-`>`
character at a time until `hrefAt` succeeds. -/
def hrefGapLoop :
    Nat → List Char → List Char →
    Option (List Char × Char × List Char × List Char)
  | 0, _, _ => none
  | fuel + 1, gapAcc, s =>
    match hrefAt s with
    | some (g1b, q, tgt, g4) => some (gapAcc.reverse ++ g1b, q, tgt, g4)
    | none =>
      match s with
      | c :: t => if c ≠ '>' then hrefGapLoop fuel (c :: gapAcc) t else none
      | [] => none

/-- Matcher for `_HTML_HREF_RE`
(`(<a\s[^>]*?href\s*=\s*)(["'])(\.\.\/[^"']*)\2([^>]*>)`, ignorecase):
returns group 1, the quote, the target, group 4 and the total length. -/
def htmlHrefMatch (s : List Char) :
    Option (List Char × Char × List Char × List Char × Nat) :=
  match s with
  | '<' :: a :: c :: rest =>
    if (a = 'a' || a = 'A') && isPySpace c then
      match hrefGapLoop (rest.length + 1) [] rest with
      | some (g1b, q, tgt, g4) =>
        let g1 := '<' :: a :: c :: g1b
        some (g1, q, tgt, g4, g1.length + 1 + tgt.length + 1 + g4.length)
      | none => none
    else none
  | _ => none

/-- The `_HTML_HREF_RE.sub(_rewrite_html, markdown)` pass. -/
def subHtmlLinks (ctx : Ctx) : Nat → List Char → List Char
  | 0, s => s
  | fuel + 1, s =>
    match s with
    | [] => []
    | c :: t =>
      match htmlHrefMatch s with
      | some (g1, q, tgt, g4, n) =>
        let piece :=
          match _resolve_and_rewrite tgt ctx.pageDir ctx.repoUrl ctx.branch
          with
          | none => s.take n
          | some url => g1 ++ q :: (url ++ q :: g4)
        piece ++ subHtmlLinks ctx fuel (s.drop n)
      | none => c :: subHtmlLinks ctx fuel t

/-- Matcher for `_REF_LINK_RE`
(`^(\[([^\]]+)\]:\s*)(\.\.\/\S+)([ \t]+"[^"]*")?[ \t]*$`, multiline),
applicable only at a line start: returns group 1, the target (group 3), the
optional title (group 4, empty when absent) and the total match length
(including trailing blanks, which the replacement drops). -/
def refLinkMatch (s : List Char) :
    Option (List Char × List Char × List Char × Nat) :=
  match s with
  | '[' :: t =>
    let label := t.takeWhile (· ≠ ']')
    if label = [] then none
    else
      match t.drop label.length with
      | ']' :: ':' :: r1 =>
        let ws := r1.takeWhile isPySpace
        let r2 := r1.drop ws.length
        if "../".data.isPrefixOf r2 then
          let tgt := r2.takeWhile (fun c => !isPySpace c)
          if tgt.length ≥ 4 then
            let r3 := r2.drop tgt.length
            let sp1 := r3.takeWhile (fun c => c = ' ' || c = '\t')
            let titleRest :=
              if sp1 ≠ [] then
                match r3.drop sp1.length with
                | '"' :: tr =>
                  let ts := tr.takeWhile (· ≠ '"')
                  match tr.drop ts.length with
                  | '"' :: r5 => some (sp1 ++ '"' :: (ts ++ ['"']), r5)
                  | _ => none
                | _ => none
              else none
            let (title, r4) := titleRest.getD ([], r3)
            let sp2 := r4.takeWhile (fun c => c = ' ' || c = '\t')
            let g1 := '[' :: (label ++ ']' :: ':' :: ws)
            let total := g1.length + tgt.length + title.length + sp2.length
            match r4.drop sp2.length with
            | [] => some (g1, tgt, title, total)
            | '\n' :: _ => some (g1, tgt, title, total)
            | _ => none
          else none
        else none
      | _ => none
  | _ => none

/-- The `_REF_LINK_RE.sub(_rewrite_ref, markdown)` pass (anchored at line
starts). -/
def subRefLinks (ctx : Ctx) : Nat → Bool → List Char → List Char
  | 0, _, s => s
  | fuel + 1, atLineStart, s =>
    match s with
    | [] => []
    | c :: t =>
      match (if atLineStart then refLinkMatch s else none) with
      | some (g1, tgt, title, n) =>
        let piece :=
          match _resolve_and_rewrite tgt ctx.pageDir ctx.repoUrl ctx.branch
          with
          | none => s.take n
          | some url => g1 ++ url ++ title
        piece ++ subRefLinks ctx fuel false (s.drop n)
      | none =>
        if c = '\n' then c :: subRefLinks ctx fuel true t
        else c :: subRefLinks ctx fuel false t

/-! ### The hook entry point -/

/-- The slice of the MkDocs configuration that `on_page_markdown` reads:
`config.get("repo_url", "")` and `extra.get("repo_links_default_branch")`. -/
structure MkConfig where
  repoUrl : Option (List Char)
  defaultBranch : Option (List Char)

/-- Models `on_page_markdown(markdown, page=..., config=..., files=...)`:
mask protected regions, run the three rewriting passes, restore.  Returns
the page unchanged when `repo_url` is absent or empty. -/
def on_page_markdown (markdown : List Char) (pageSrcPath : List Char)
    (cfg : MkConfig) : List Char :=
  let repoUrl := rstripSlashes (cfg.repoUrl.getD [])
  if repoUrl = [] then markdown
  else
    let branch := cfg.defaultBranch.getD ("main".data)
    let pageDir := posixDirname pageSrcPath
    let ctx : Ctx := ⟨pageDir, repoUrl, branch⟩
    let (t0, ph) := _protect markdown
    let t1 := subMdLinks ctx (t0.length + 1) none t0
    let t2 := subHtmlLinks ctx (t1.length + 1) t1
    let t3 := subRefLinks ctx (t2.length + 1) true t2
    _restore t3 ph

end RepoLinks

end Spec2Proof

namespace Spec2Proof

open ArchiveTodos WorkflowVersions RepoLinks

/-- A MkDocs configuration with `repo_url` set. -/
def cfg0 : MkConfig := ⟨some "https://github.com/o/r".data, none⟩

/-! ## Cross-validation of the embedding on concrete inputs

Each of the following equations was checked against the behaviour of the
original Python code on the same input. -/

theorem eval_rl1 :
    on_page_markdown ("[t](../`code`/../x)".data) ("index.md".data) cfg0 =
      "[t](https://github.com/o/r/tree/main/x)".data := by decide

theorem eval_rl2 :
    on_page_markdown ("see [a](../pyproject.toml) and [b](other.md)".data)
      ("guide/page.md".data) cfg0 =
      "see [a](../pyproject.toml) and [b](other.md)".data := by decide

theorem eval_rl3 :
    on_page_markdown ("```\n[x](../LICENSE)\n```\nout [y](../LICENSE)".data)
      ("index.md".data) cfg0 =
      "```\n[x](../LICENSE)\n```\nout [y](https://github.com/o/r/blob/main/LICENSE)".data
    := by decide

theorem eval_rl4 :
    on_page_markdown ("`[z](../a.md)` and <!-- [w](../b.md) --> done".data)
      ("index.md".data) cfg0 =
      "`[z](../a.md)` and <!-- [w](../b.md) --> done".data := by decide

theorem eval_rl5 :
    on_page_markdown ("![img](../logo.png) vs [txt](../logo.png)".data)
      ("index.md".data) cfg0 =
      "![img](../logo.png) vs [txt](https://github.com/o/r/blob/main/logo.png)".data
    := by decide

theorem eval_rl6 :
    on_page_markdown ("[q](../dir/?plain=1#L10)".data) ("index.md".data) cfg0
      = "[q](https://github.com/o/r/tree/main/dir?plain=1#L10)".data := by
  decide

theorem eval_rl7 :
    on_page_markdown ("[ref]: ../Makefile \"The makefile\"  \nbody".data)
      ("index.md".data) cfg0 =
      "[ref]: https://github.com/o/r/blob/main/Makefile \"The makefile\"\nbody".data
    := by decide

theorem eval_rl8 :
    on_page_markdown ("<a class=x HREF=\"../src/main.py\">s</a>".data)
      ("index.md".data) cfg0 =
      "<a class=x HREF=\"https://github.com/o/r/blob/main/src/main.py\">s</a>".data
    := by decide

theorem eval_rl9 :
    on_page_markdown ("~~~~\ncode [a](../x.md)\n~~~~\n[b](../x.md)".data)
      ("index.md".data) cfg0 =
      "~~~~\ncode [a](../x.md)\n~~~~\n[b](https://github.com/o/r/blob/main/x.md)".data
    := by decide

theorem eval_collect :
    _collect_completed_blocks ("q- [x] ab\n- [x] a\n".data) =
      ["- [x] a".data] := by decide

theorem eval_remove :
    _remove_blocks ("q- [x] ab\n- [x] a\n".data) ["- [x] a".data] =
      "qb\n- [x] a\n".data := by decide

theorem eval_update1 :
    updateLine
      ("      - uses: actions/checkout@aaaaaaaaaaaaaaaaaaaaaaaaaaaaaaaaaaaaaaaa # v3.0.0 blah".data)
      ("v4.2.0".data) false none =
    some "      - uses: actions/checkout@aaaaaaaaaaaaaaaaaaaaaaaaaaaaaaaaaaaaaaaa # v4.2.0 blah".data
    := by decide

theorem eval_update2 :
    updateLine
      ("uses: actions/checkout@aaaaaaaaaaaaaaaaaaaaaaaaaaaaaaaaaaaaaaaa".data)
      ("v4.2.0".data) false none =
    some "uses: actions/checkout@aaaaaaaaaaaaaaaaaaaaaaaaaaaaaaaaaaaaaaaa # v4.2.0".data
    := by decide

theorem eval_update3 :
    updateLine
      ("      - uses: actions/checkout@aaaaaaaaaaaaaaaaaaaaaaaaaaaaaaaaaaaaaaaa # v3.0.0 blah".data)
      ("v4.2.0".data) false (some "Checkout code".data) =
    some "      - uses: actions/checkout@aaaaaaaaaaaaaaaaaaaaaaaaaaaaaaaaaaaaaaaa # Checkout code (v4.2.0)".data
    := by decide

theorem eval_update4 :
    updateLine
      ("      - uses: actions/checkout@aaaaaaaaaaaaaaaaaaaaaaaaaaaaaaaaaaaaaaaa # Checkout code (v3.0.0)".data)
      ("v4.2.0".data) true none =
    some "      - uses: actions/checkout@aaaaaaaaaaaaaaaaaaaaaaaaaaaaaaaaaaaaaaaa # Checkout code (v4.2.0)".data
    := by decide

theorem eval_norm :
    _normalize_version "v1.2.3-beta" = [1, 2, 3] ∧
    _normalize_version "v4" = [4, 0, 0] ∧
    _normalize_version "" = [0, 0, 0] ∧
    _normalize_version "v1.2.3.4" = [1, 2, 3, 4] ∧
    _versions_equal "v4" "v4.0.0" = true ∧
    _versions_equal "v4.1" "v4.2" = false := by decide

/-! ## Helper lemmas -/

theorem length_takeWhile_add_dropWhile (p : Char → Bool) (l : List Char) :
    (l.takeWhile p).length + (l.dropWhile p).length = l.length := by
  rw [← List.length_append, List.takeWhile_append_dropWhile]

theorem drop_length_takeWhile (p : Char → Bool) (l : List Char) :
    l.drop (l.takeWhile p).length = l.dropWhile p := by
  induction l with
  | nil => rfl
  | cons c t ih =>
    by_cases hc : p c
    · simp [List.takeWhile_cons, List.dropWhile_cons, hc, ih]
    · simp [List.takeWhile_cons, List.dropWhile_cons, hc]

theorem takeWhile_eq_self_of_all (p : Char → Bool) (l : List Char)
    (h : l.all p = true) : l.takeWhile p = l := by
  induction l with
  | nil => rfl
  | cons c t ih =>
    simp only [List.all_cons, Bool.and_eq_true] at h
    simp [List.takeWhile_cons, h.1, ih h.2]

theorem dropWhile_eq_nil_of_all (p : Char → Bool) (l : List Char)
    (h : l.all p = true) : l.dropWhile p = [] := by
  induction l with
  | nil => rfl
  | cons c t ih =>
    simp only [List.all_cons, Bool.and_eq_true] at h
    simp [List.dropWhile_cons, h.1, ih h.2]

theorem mem_of_mem_dropWhile (p : Char → Bool) (l : List Char) (a : Char)
    (h : a ∈ l.dropWhile p) : a ∈ l := by
  induction l with
  | nil => simp at h
  | cons c t ih =>
    by_cases hc : p c
    · simp only [List.dropWhile_cons, hc, if_true] at h
      exact List.mem_cons_of_mem c (ih h)
    · simpa [List.dropWhile_cons, hc] using h

theorem subOnce_step_match (m : List Char → Option Nat) (r : List Char)
    (k : Nat) (s : List Char) (n : Nat) (hm : m s = some n) :
    subOnce m r (k + 1) s = r ++ s.drop n := by
  simp [subOnce, hm]

theorem subOnce_skip (m : List Char → Option Nat) (c0 : Char)
    (hm0 : ∀ s : List Char, s.head? ≠ some c0 → m s = none)
    (r : List Char) (p s : List Char) (k : Nat) :
    c0 ∉ p → subOnce m r (p.length + k) (p ++ s) = p ++ subOnce m r k s := by
  induction p with
  | nil => intro _; simp
  | cons c t ih =>
    intro hp
    have hc : c ≠ c0 := fun h => hp (h ▸ List.mem_cons_self c t)
    have h0 : m (c :: (t ++ s)) = none := hm0 _ (by simp [hc])
    have hlen : (c :: t).length + k = (t.length + k) + 1 := by
      simp [Nat.add_right_comm]
    rw [List.cons_append, hlen]
    have hstep : subOnce m r ((t.length + k) + 1) (c :: (t ++ s)) =
        c :: subOnce m r (t.length + k) (t ++ s) := by
      simp [subOnce, h0]
    rw [hstep, ih (fun hmem => hp (List.mem_cons_of_mem c hmem))]
    simp

theorem matchHashToken_none_of_head (s : List Char)
    (h : s.head? ≠ some '#') : matchHashToken s = none := by
  cases s with
  | nil => rfl
  | cons c t =>
    have hc : c ≠ '#' := by simpa using h
    simp [matchHashToken, hc]

theorem matchHashRest_none_of_head (s : List Char)
    (h : s.head? ≠ some '#') : matchHashRest s = none := by
  cases s with
  | nil => rfl
  | cons c t =>
    have hc : c ≠ '#' := by simpa using h
    simp [matchHashRest, hc]

theorem matchParenVersion_none_of_head (s : List Char)
    (h : s.head? ≠ some '(') : matchParenVersion s = none := by
  cases s with
  | nil => rfl
  | cons c t =>
    have hc : c ≠ '(' := by simpa using h
    simp [matchParenVersion, hc]

theorem contains_hash_of_append (w rest : List Char) :
    (w ++ '#' :: rest).contains '#' = true := by
  have h : '#' ∈ w ++ '#' :: rest := by simp
  exact List.elem_eq_true_of_mem h

/-! ## The claims -/

/-- C1: the claim states that the `upgradable` flag is computed with a
normalized version comparison under which `v4` and `v4.0.0` are equal.  The
code of `scan_workflows` in `src/scripts/workflow_versions.py` compares the
current and latest tags with plain string inequality, so a line whose
current tag is `v4` while the latest release tag is `v4.0.0` is flagged
upgradable even though the normalized comparison (required by the spec and
pinned by the repository's own unit tests for `_versions_equal`, which the
`src` copy does not even define) treats the two tags as equal. -/
theorem workflow_upgradable_string_compare_bug :
    upgradableFlag none (some "v4") (some "v4.0.0") = "yes" ∧
    _versions_equal "v4" "v4.0.0" = true := by decide

/-- C4: the claim states that text inside an inline code span is never
modified.  On the page `[t](../`code`/../x)` the inline code span
`` `code` `` is masked with a placeholder, the placeholder ends up inside a
link target that escapes the docs root, and `posixpath.normpath` deletes the
path segment holding the placeholder, so `_restore` finds nothing to restore:
the code-span text has vanished from the output. -/
theorem repo_links_protected_region_destroyed :
    containsSub ("`code`".data) ("[t](../`code`/../x)".data) = true ∧
    on_page_markdown ("[t](../`code`/../x)".data) ("index.md".data) cfg0 =
      "[t](https://github.com/o/r/tree/main/x)".data ∧
    containsSub ("`code`".data)
      ("[t](https://github.com/o/r/tree/main/x)".data) = false := by decide

/-- C7: the claim states that removing the collected completed blocks leaves
no trace of any block and alters no other text.  `_remove_blocks` removes
the *leftmost* occurrence of each block string; on
`"q- [x] ab\n- [x] a\n"` the collected block `- [x] a` occurs earlier as a
non-anchored substring of the first line, so that line is mangled to `qb`
while the completed item itself survives and is collected again from the
result. -/
theorem remove_blocks_leftmost_occurrence_bug :
    _collect_completed_blocks ("q- [x] ab\n- [x] a\n".data) =
      ["- [x] a".data] ∧
    _remove_blocks ("q- [x] ab\n- [x] a\n".data) ["- [x] a".data] =
      "qb\n- [x] a\n".data ∧
    _collect_completed_blocks ("qb\n- [x] a\n".data) = ["- [x] a".data] := by
  decide

/-- C8 counterexample: running `archive_todos` twice on
`"q- [x] ab\n- [x] a\n"` does not produce the same todo file as running it
once (the first run mangles the first line and leaves the completed item in
place; the second run then removes it), so the claim's "running the
operation twice on any input produces the same files as running it once" is
false. -/
theorem archive_todos_twice_differs :
    (archive_todos ("January 2026".data)
      (archive_todos ("January 2026".data) ("q- [x] ab\n- [x] a\n".data)
        ("# Archive\n".data)).2.1
      (archive_todos ("January 2026".data) ("q- [x] ab\n- [x] a\n".data)
        ("# Archive\n".data)).2.2).2.1 ≠
    (archive_todos ("January 2026".data) ("q- [x] ab\n- [x] a\n".data)
      ("# Archive\n".data)).2.1 := by decide

/-- C8 (amended): on a todo file from which no completed block is collected,
`archive_todos` returns a count of zero and leaves both files unchanged, so
a second run on such an input produces the same files as the first. -/
theorem archive_todos_idempotent_no_checked (m t a : List Char)
    (h : _collect_completed_blocks t = []) :
    archive_todos m t a = (0, t, a) ∧
    archive_todos m (archive_todos m t a).2.1 (archive_todos m t a).2.2 =
      archive_todos m t a := by
  have h1 : archive_todos m t a = (0, t, a) := by
    simp [archive_todos, h]
  exact ⟨h1, by rw [h1]; exact h1⟩

theorem archive_todos_idempotent_no_checked_witness :
    archive_todos ("January 2026".data) ("- [ ] Keep\n".data)
      ("# Archive\n".data) =
      (0, "- [ ] Keep\n".data, "# Archive\n".data) :=
  (archive_todos_idempotent_no_checked ("January 2026".data)
    ("- [ ] Keep\n".data) ("# Archive\n".data) (by decide)).1

/-- C9: the claim states that a workflow file deleted between scan and write
is skipped with a diagnostic and the remaining files are still processed.
In `src/scripts/workflow_versions.py`, `update_comments` calls
`wf_path.read_text` with no exception handling, so the `FileNotFoundError`
propagates and aborts the run: with the unreadable `gone.yml` first, the
perfectly healthy `ok.yml` is never rewritten, while the same rows without
the deleted file update one line. -/
theorem update_comments_unreadable_file_aborts :
    update_comments fs9 (fun _ => none) [rowGone, rowOk] =
      .error
        "FileNotFoundError: [Errno 2] No such file or directory: gone.yml" ∧
    update_comments fs9 (fun _ => none) [rowOk] = .ok 1 := by decide

/-- C5: every failure outcome of a GitHub API request — HTTP 403, HTTP 404,
any other HTTP error, a network error, a timeout, or a body whose JSON parse
fails — makes `_gh_api` return `none` rather than raise (the embedding is a
total function, so no exception can escape); a 403 prints the token
guidance, and a 404 prints nothing. -/
theorem gh_api_failure_returns_none (url : String) (o : GhOutcome)
    (h : ∀ j, o ≠ .ok (some j)) :
    (_gh_api url o).1 = none ∧
    (o = .httpError 403 →
      (_gh_api url o).2 =
        ["  [!] GitHub API rate limit reached. Set GITHUB_TOKEN env var for 5,000 req/hr (current: 60/hr unauthenticated)."]) ∧
    (o = .httpError 404 → (_gh_api url o).2 = []) := by
  cases o with
  | ok p =>
    cases p with
    | none =>
      exact ⟨rfl, fun hcon => GhOutcome.noConfusion hcon,
        fun hcon => GhOutcome.noConfusion hcon⟩
    | some j => exact absurd rfl (h j)
  | httpError c =>
    refine ⟨?_, ?_, ?_⟩
    · by_cases h3 : c = 403
      · subst h3; rfl
      · by_cases h4 : c = 404
        · subst h4; rfl
        · simp [_gh_api, h3, h4]
    · intro hc
      have hc' : c = 403 := by injection hc
      subst hc'; rfl
    · intro hc
      have hc' : c = 404 := by injection hc
      subst hc'; rfl
  | urlError reason =>
    exact ⟨rfl, fun hcon => GhOutcome.noConfusion hcon,
      fun hcon => GhOutcome.noConfusion hcon⟩
  | timedOut =>
    exact ⟨rfl, fun hcon => GhOutcome.noConfusion hcon,
      fun hcon => GhOutcome.noConfusion hcon⟩

theorem gh_api_failure_returns_none_witness :
    (_gh_api "https://api.github.com/repos/o/r/tags" (.httpError 403)).1 =
      none ∧
    (_gh_api "https://api.github.com/repos/o/r/tags" (.httpError 403)).2 =
      ["  [!] GitHub API rate limit reached. Set GITHUB_TOKEN env var for 5,000 req/hr (current: 60/hr unauthenticated)."] := by
  have h := gh_api_failure_returns_none
    "https://api.github.com/repos/o/r/tags" (.httpError 403)
    (fun j hj => GhOutcome.noConfusion hj)
  exact ⟨h.1, h.2.1 rfl⟩

/-- C2: the caching helper consults the cache first (a fresh entry is served
without calling the API), stores a response if and only if it is a non-null
success, and a stored success is found again by the next lookup while a
failure leaves the cache unchanged so the next invocation retries the
request. -/
theorem cached_gh_api_stores_iff_success (api : String → Option String)
    (ttl now : Nat) (cache : Cache) (url : String) :
    (∀ v, cacheLookup ttl now cache url = some v →
      _cached_gh_api api ttl now cache url = (some v, cache, false)) ∧
    (cacheLookup ttl now cache url = none →
      (api url = none →
        _cached_gh_api api ttl now cache url = (none, cache, true)) ∧
      (∀ v, api url = some v →
        _cached_gh_api api ttl now cache url =
          (some v, (url, now, v) :: cache.filter (fun e => e.1 ≠ url),
           true) ∧
        (0 < ttl →
          cacheLookup ttl now
            ((url, now, v) :: cache.filter (fun e => e.1 ≠ url)) url =
            some v))) := by
  refine ⟨?_, ?_⟩
  · intro v hv
    simp [_cached_gh_api, hv]
  · intro hmiss
    refine ⟨?_, ?_⟩
    · intro hnone
      simp [_cached_gh_api, hmiss, hnone]
    · intro v hv
      refine ⟨by simp [_cached_gh_api, hmiss, hv], ?_⟩
      intro httl
      simp [cacheLookup, List.find?, Nat.sub_self, httl]

theorem cached_gh_api_stores_iff_success_witness :
    _cached_gh_api (fun _ => some "ok") 3600 100 [] "u" =
      (some "ok", [("u", 100, "ok")], true) ∧
    _cached_gh_api (fun _ => none) 3600 100 [] "u" = (none, [], true) ∧
    cacheLookup 3600 100 [("u", 100, "ok")] "u" = some "ok" := by
  have hs := cached_gh_api_stores_iff_success (fun _ => some "ok")
    3600 100 [] "u"
  have hf := cached_gh_api_stores_iff_success (fun _ => none) 3600 100 [] "u"
  have h1 := (hs.2 (by decide)).2 "ok" rfl
  refine ⟨?_, (hf.2 (by decide)).1 rfl, h1.2 (by decide)⟩
  have := h1.1
  simpa using this

/-- The request log of `tagPointsAtLoop` never contains a paged tag-listing
request: the loop issues only ref-peeling calls. -/
theorem tagPointsAtLoop_no_tags_page (gh : Gh) (slug tag sha : String)
    (rs : List RefObj) :
    ∀ r ∈ (tagPointsAtLoop gh slug tag sha rs).2, r.isTagsPage = false := by
  induction rs with
  | nil => simp [tagPointsAtLoop]
  | cons x xs ih =>
    intro r hr
    simp only [tagPointsAtLoop, _peel_to_commit] at hr
    by_cases h1 : removePrefixStr "refs/tags/" x.ref ≠ tag
    · rw [if_pos h1] at hr
      exact ih r hr
    · rw [if_neg h1] at hr
      by_cases h2 : x.objSha = sha
      · rw [if_pos h2] at hr
        simp at hr
      · rw [if_neg h2] at hr
        by_cases h3 : x.objType = "tag"
        · rw [if_pos h3] at hr
          simp at hr
          subst hr
          rfl
        · rw [if_neg h3] at hr
          exact ih r hr

/-- The request log of `_tag_points_at` never contains a paged tag-listing
request. -/
theorem tag_points_at_no_tags_page (gh : Gh) (slug tag sha : String) :
    ∀ r ∈ (_tag_points_at gh slug tag sha).2, r.isTagsPage = false := by
  unfold _tag_points_at
  cases hrefs : gh.refs slug tag with
  | none =>
    intro r hr
    simp at hr
    subst hr
    rfl
  | some refs =>
    intro r hr
    simp only at hr
    rcases List.mem_cons.1 hr with h | h
    · subst h; rfl
    · exact tagPointsAtLoop_no_tags_page gh slug tag sha refs r h

/-- C3: when the hint tag from an existing inline comment verifies —
`_tag_points_at` confirms the tag's ref points at the SHA, peeling annotated
tags where needed — `_resolve_tag` returns the hint, its request log is
exactly the verification's log, and that log contains no paged tag-listing
request: the multi-page tag scan is never performed on the fast path. -/
theorem resolve_tag_fast_path_no_tag_scan (gh : Gh)
    (ownerRepo sha t : String) (ht : t ≠ "")
    (h : (_tag_points_at gh (_repo_slug ownerRepo) t sha).1 = true) :
    _resolve_tag gh ownerRepo sha (some t) =
      (some t, (_tag_points_at gh (_repo_slug ownerRepo) t sha).2) ∧
    ∀ r ∈ (_resolve_tag gh ownerRepo sha (some t)).2, r.isTagsPage = false
    := by
  have heq : _resolve_tag gh ownerRepo sha (some t) =
      (some t, (_tag_points_at gh (_repo_slug ownerRepo) t sha).2) := by
    show (if t = "" then
            _resolve_tag_from_tags_api gh (_repo_slug ownerRepo) sha
          else
            if (_tag_points_at gh (_repo_slug ownerRepo) t sha).1 then
              (some t, (_tag_points_at gh (_repo_slug ownerRepo) t sha).2)
            else
              ((_resolve_tag_from_tags_api gh (_repo_slug ownerRepo) sha).1,
               (_tag_points_at gh (_repo_slug ownerRepo) t sha).2 ++
                 (_resolve_tag_from_tags_api gh
                   (_repo_slug ownerRepo) sha).2)) =
        (some t, (_tag_points_at gh (_repo_slug ownerRepo) t sha).2)
    rw [if_neg ht, if_pos h]
  refine ⟨heq, ?_⟩
  rw [heq]
  exact fun r hr =>
    tag_points_at_no_tags_page gh (_repo_slug ownerRepo) t sha r hr

theorem resolve_tag_fast_path_no_tag_scan_witness :
    _resolve_tag gh0 "actions/checkout" shaA (some "v4") =
      (some "v4", [.matchingRefs "actions/checkout" "v4"]) ∧
    ∀ r ∈ (_resolve_tag gh0 "actions/checkout" shaA (some "v4")).2,
      r.isTagsPage = false := by
  have h := resolve_tag_fast_path_no_tag_scan gh0 "actions/checkout" shaA
    "v4" (by decide) (by decide)
  refine ⟨?_, h.2⟩
  rw [h.1]
  decide

/-- C6 counterexample: a line whose comment holds extra text after the
version token, synced with no description available, keeps that extra text:
the rewritten comment is `# v4.2.0 blah`, not the canonical `# v4.2.0`. -/
theorem update_comments_comment_not_canonical :
    updateLine
      ("      - uses: actions/checkout@" ++ shaA ++ " # v3.0.0 blah").data
      ("v4.2.0".data) false none =
      some
        ("      - uses: actions/checkout@" ++ shaA ++ " # v4.2.0 blah").data
      ∧
    ("      - uses: actions/checkout@" ++ shaA ++ " # v4.2.0 blah").data ≠
      ("      - uses: actions/checkout@" ++ shaA ++ " # v4.2.0").data := by
  decide

/-- C6 (amended): for every line matched by `_USES_RE` and rewritten by the
comment-sync path: (a) the rebuilt line reproduces the action reference and
the 40-character SHA byte-for-byte; (b) with no existing comment the new
comment is exactly `# <tag>`, or `# <desc> (<tag>)` when a description is
available; (c) with no description available, the version token after `#`
is replaced by the tag and any following comment text is preserved — in
particular a bare-tag comment becomes exactly `# <tag>`; (d) with a fetched
description the whole comment is rewritten to `# <desc> (<tag>)`; (e) with
an existing description the parenthesised version is replaced by the tag. -/
theorem update_comments_rewrite_spec (line newTag : List Char)
    (m : UsesMatch) (hm : usesMatch line = some m) :
    (∀ hasDesc desc, updateLine line newTag hasDesc desc =
      some (linePrefixOf line m ++ newTrailOf m.trail newTag hasDesc desc))
    ∧
    (m.trail.contains '#' = false →
      newTrailOf m.trail newTag false none = ' ' :: '#' :: ' ' :: newTag ∧
      ∀ d, newTrailOf m.trail newTag false (some d) =
        ' ' :: '#' :: ' ' :: (d ++ ' ' :: '(' :: (newTag ++ [')']))) ∧
    (∀ w rest, m.trail = w ++ '#' :: rest → '#' ∉ w →
      rest.dropWhile isPySpace ≠ [] →
      newTrailOf m.trail newTag false none =
        w ++ '#' :: ' ' ::
          (newTag ++
            (rest.dropWhile isPySpace).dropWhile (fun c => !isPySpace c)) ∧
      ((rest.dropWhile isPySpace).all (fun c => !isPySpace c) = true →
        newTrailOf m.trail newTag false none = w ++ '#' :: ' ' :: newTag)) ∧
    (∀ w rest d, m.trail = w ++ '#' :: rest → '#' ∉ w →
      rest.dropWhile isPySpace ≠ [] → '\n' ∉ m.trail →
      newTrailOf m.trail newTag false (some d) =
        w ++ '#' :: ' ' :: (d ++ ' ' :: '(' :: (newTag ++ [')']))) ∧
    (∀ w ver desc, m.trail = w ++ '(' :: (ver ++ [')']) → '(' ∉ w →
      m.trail.contains '#' = true →
      matchParenVersionTail (ver ++ [')']) = some (ver.length + 2) →
      newTrailOf m.trail newTag true desc = w ++ '(' :: (newTag ++ [')'])) := by
  refine ⟨?_, ?_, ?_, ?_, ?_⟩
  · intro hasDesc desc
    simp [updateLine, hm, linePrefixOf, List.append_assoc]
  · intro hno
    refine ⟨?_, fun d => ?_⟩ <;>
      (unfold newTrailOf; rw [hno]; simp)
  · intro w rest hsplit hw hne
    have hcontains : m.trail.contains '#' = true := by
      rw [hsplit]; exact contains_hash_of_append w rest
    have hpart := length_takeWhile_add_dropWhile isPySpace rest
    have hmatch : matchHashToken ('#' :: rest) =
        some (1 + (rest.length - (rest.dropWhile isPySpace).length) +
          ((rest.dropWhile isPySpace).takeWhile
            (fun c => !isPySpace c)).length) := by
      simp [matchHashToken, hne]
    have hlen : m.trail.length = w.length + (rest.length + 1) := by
      rw [hsplit]; simp
    have hgen : newTrailOf m.trail newTag false none =
        w ++ '#' :: ' ' ::
          (newTag ++
            (rest.dropWhile isPySpace).dropWhile (fun c => !isPySpace c))
        := by
      simp only [newTrailOf, hcontains, if_true, Bool.false_eq_true,
        if_false]
      rw [hlen]
      conv_lhs => rw [hsplit]
      rw [subOnce_skip matchHashToken '#' matchHashToken_none_of_head _ w
        ('#' :: rest) (rest.length + 1) hw]
      rw [subOnce_step_match matchHashToken _ rest.length ('#' :: rest) _
        hmatch]
      have hn : 1 + (rest.length - (rest.dropWhile isPySpace).length) +
          ((rest.dropWhile isPySpace).takeWhile
            (fun c => !isPySpace c)).length =
          ((rest.takeWhile isPySpace).length +
            ((rest.dropWhile isPySpace).takeWhile
              (fun c => !isPySpace c)).length) + 1 := by omega
      rw [hn, List.drop_succ_cons, ← List.drop_drop,
        drop_length_takeWhile isPySpace rest,
        drop_length_takeWhile (fun c => !isPySpace c)
          (rest.dropWhile isPySpace)]
      simp
    refine ⟨hgen, fun hall => ?_⟩
    rw [hgen, dropWhile_eq_nil_of_all _ _ hall]
    simp
  · intro w rest d hsplit hw hne hnl
    have hcontains : m.trail.contains '#' = true := by
      rw [hsplit]; exact contains_hash_of_append w rest
    have hpart := length_takeWhile_add_dropWhile isPySpace rest
    have hall : (rest.dropWhile isPySpace).all (· ≠ '\n') = true := by
      rw [List.all_eq_true]
      intro c hc
      have hcr : c ∈ m.trail := by
        rw [hsplit]
        exact List.mem_append_right w
          (List.mem_cons_of_mem '#' (mem_of_mem_dropWhile isPySpace rest c hc))
      have : c ≠ '\n' := fun hcc => hnl (hcc ▸ hcr)
      simpa using this
    have hmatch : matchHashRest ('#' :: rest) =
        some (1 + (rest.length - (rest.dropWhile isPySpace).length) +
          (rest.dropWhile isPySpace).length) := by
      simp only [matchHashRest, if_pos rfl]
      rw [if_neg hne, takeWhile_eq_self_of_all _ _ hall]
      simp
    have hlen : m.trail.length = w.length + (rest.length + 1) := by
      rw [hsplit]; simp
    simp only [newTrailOf, hcontains, if_true, Bool.false_eq_true, if_false]
    rw [hlen]
    conv_lhs => rw [hsplit]
    rw [subOnce_skip matchHashRest '#' matchHashRest_none_of_head _ w
      ('#' :: rest) (rest.length + 1) hw]
    rw [subOnce_step_match matchHashRest _ rest.length ('#' :: rest) _
      hmatch]
    have hge : ('#' :: rest).length ≤
        1 + (rest.length - (rest.dropWhile isPySpace).length) +
          (rest.dropWhile isPySpace).length := by
      simp only [List.length_cons]; omega
    rw [List.drop_eq_nil_of_le hge]
    simp
  · intro w ver desc hsplit hw hcontains hver
    have hmatch : matchParenVersion ('(' :: (ver ++ [')'])) =
        some (ver.length + 2) := by
      simp [matchParenVersion, hver]
    have hlen : m.trail.length = w.length + (ver.length + 2) := by
      rw [hsplit]; simp
    simp only [newTrailOf, hcontains, if_true]
    rw [hlen]
    conv_lhs => rw [hsplit]
    have h2 : ver.length + 2 = (ver.length + 1) + 1 := rfl
    rw [h2]
    rw [subOnce_skip matchParenVersion '(' matchParenVersion_none_of_head _
      w ('(' :: (ver ++ [')'])) (ver.length + 1 + 1) hw]
    rw [subOnce_step_match matchParenVersion _ (ver.length + 1)
      ('(' :: (ver ++ [')'])) _ hmatch]
    have hge : ('(' :: (ver ++ [')'])).length ≤ ver.length + 2 := by
      simp
    rw [List.drop_eq_nil_of_le hge]
    simp

theorem update_comments_rewrite_spec_witness :
    updateLine ("uses: actions/checkout@" ++ shaA).data ("v4.2.0".data)
      false none =
      some ("uses: actions/checkout@" ++ shaA ++ " # v4.2.0").data := by
  have h := update_comments_rewrite_spec
    ("uses: actions/checkout@" ++ shaA).data ("v4.2.0".data)
    ⟨[], "actions/checkout".data, shaA.data, []⟩ (by decide)
  rw [h.1 false none]
  decide

/-- C10: when the configuration's `repo_url` is absent or empty,
`on_page_markdown` returns the page markdown exactly unchanged: no masking,
rewriting or restoring is applied. -/
theorem on_page_markdown_empty_repo_url_identity
    (markdown pageSrcPath : List Char) (cfg : MkConfig)
    (h : cfg.repoUrl = none ∨ cfg.repoUrl = some []) :
    on_page_markdown markdown pageSrcPath cfg = markdown := by
  rcases h with h | h <;> simp [on_page_markdown, h, rstripSlashes]

theorem on_page_markdown_empty_repo_url_identity_witness :
    on_page_markdown ("see [a](../x.md)".data) ("index.md".data)
      ⟨none, none⟩ = "see [a](../x.md)".data :=
  on_page_markdown_empty_repo_url_identity _ _ _ (Or.inl rfl)

end Spec2Proof
